import Mathlib

/-!
Verification development for the nebula-commander control plane.

Shallow embedding of the core control-plane subsystem:
* `src/backend/services/ip_allocator.py` (IP allocation),
* `src/backend/services/encryption.py` and `cert_store.py` (encrypted store),
* `src/backend/services/cert_manager.py` (CA / host certificate lifecycle),
* `src/backend/utils/nebula_cert.py` (external tool argument construction),
* `src/backend/services/config_generator.py` (firewall translation),
* `src/backend/api/nodes.py` (node update / delete / revoke / re-enroll handlers),
* `src/backend/models/db.py` (table schema facts).

Modelling conventions:
* IPv4 addresses are natural numbers (the numeric value of the dotted quad);
  Python's `str(ip_address)` rendering is injective on valid addresses, so
  string-keyed allocation rows are modelled by their numeric value.
* Database tables are lists of records; SQLAlchemy's flush/commit becomes
  explicit state passing, and `get_session`'s commit-on-success /
  rollback-on-exception (src/backend/database.py) is modelled by discarding
  the session state carried by an error result.
* The external `nebula-cert` tool and the Fernet primitive are black boxes:
  their outputs are oracle parameters, and Fernet tokens are a constructor
  applied to (key, plaintext).
* Fallible code returns `Except`.
-/

namespace NebulaCommander

/-! ### CIDR arithmetic (Python `ipaddress`, as used by `ip_allocator.py`)

`ip_network(subnet_cidr, strict=False)` masks the host bits; `.hosts()`
excludes the network and broadcast addresses except for /31 (both addresses)
and /32 (the single address). -/

structure Cidr where
  addr : Nat
  prefixlen : Nat
  deriving DecidableEq, Repr

/-- Number of addresses in the block, `2 ^ (32 - prefixlen)`. -/
def Cidr.size (c : Cidr) : Nat := 2 ^ (32 - c.prefixlen)

/-- `net.network_address`: the address with host bits cleared (strict=False). -/
def Cidr.networkAddress (c : Cidr) : Nat := c.addr / c.size * c.size

/-- `net.broadcast_address`. -/
def Cidr.broadcastAddress (c : Cidr) : Nat := c.networkAddress + c.size - 1

/-- Python `ip in net` for same-version addresses:
`network_address <= ip <= broadcast_address`. -/
def Cidr.containsIp (c : Cidr) (ip : Nat) : Bool :=
  decide (c.networkAddress ≤ ip) && decide (ip ≤ c.broadcastAddress)

/-- `list(net.hosts())`: ascending host addresses, excluding network and
broadcast addresses for prefixes up to /30; /31 yields both addresses and
/32 yields the single address. -/
def Cidr.hosts (c : Cidr) : List Nat :=
  if 31 ≤ c.prefixlen then List.range' c.networkAddress c.size
  else List.range' (c.networkAddress + 1) (c.size - 2)

/-! ### Allocation table (`AllocatedIP` rows, `src/backend/models/db.py:182-192`) -/

/-- One row of the `allocated_ips` table (the `node_id` column is not used by
the allocator itself). -/
structure AllocatedIPRow where
  network_id : Nat
  ip_address : Nat
  deriving DecidableEq, Repr

abbrev AllocTable := List AllocatedIPRow

/-- `IPAllocator.is_allocated`: a row with this (network, address) pair exists. -/
def is_allocated (t : AllocTable) (nid ip : Nat) : Bool :=
  t.any fun r => r.network_id == nid && r.ip_address == ip

/-- Schema fact from `src/backend/models/db.py`: the `AllocatedIP` model
declares no `__table_args__`, hence no unique constraints at all. -/
def allocatedIPsUniqueConstraints : List (List String) := []

/-- Schema fact: `NetworkGroupFirewall` does declare a unique constraint
(`uq_network_group_firewall_network_group`), showing the modelling of
`__table_args__` is not degenerate. -/
def networkGroupFirewallUniqueConstraints : List (List String) :=
  [["network_id", "group_name"]]

/-! ### `IPAllocator.allocate` (`src/backend/services/ip_allocator.py:22-76`) -/

/-- The suggested-address acceptance test of `allocate`: inside the CIDR,
neither the network nor the broadcast address, and no existing allocation
row for (network, address). -/
def suggestionAccepted (c : Cidr) (nid : Nat) (t : AllocTable) (s : Nat) : Bool :=
  c.containsIp s && !(s == c.networkAddress) && !(s == c.broadcastAddress)
    && !(is_allocated t nid s)

/-- The `for ip in hosts` scan: first host with no allocation row is recorded
and returned. -/
def allocateScan (nid : Nat) (t : AllocTable) : List Nat → Option (Nat × AllocTable)
  | [] => none
  | ip :: rest =>
    if is_allocated t nid ip then allocateScan nid t rest
    else some (ip, t ++ [⟨nid, ip⟩])

/-- `IPAllocator.allocate(network_id, subnet_cidr, suggested_ip)`.
A suggestion that is absent, unparseable (`ValueError` branch), invalid or
taken falls through to the ascending scan; exhaustion raises `ValueError`,
modelled as `.error`. -/
def allocate (nid : Nat) (c : Cidr) (suggested : Option Nat) (t : AllocTable) :
    Except String (Nat × AllocTable) :=
  let viaSuggestion : Option (Nat × AllocTable) :=
    match suggested with
    | some s =>
      if suggestionAccepted c nid t s then some (s, t ++ [⟨nid, s⟩]) else none
    | none => none
  match viaSuggestion with
  | some r => .ok r
  | none =>
    match allocateScan nid t c.hosts with
    | some r => .ok r
    | none => .error "No free IP in subnet"

/-- `IPAllocator.release`: deleting the matching row; `scalar_one_or_none`
raises `MultipleResultsFound` when more than one row matches; releasing a
non-allocated address is a no-op. -/
def release (nid ip : Nat) (t : AllocTable) : Except String AllocTable :=
  match t.filter (fun r => r.network_id == nid && r.ip_address == ip) with
  | [] => .ok t
  | [_] => .ok (t.filter fun r => !(r.network_id == nid && r.ip_address == ip))
  | _ => .error "Multiple rows were found when one or none was required"

/-! Basic lemmas about the scan. -/

theorem allocateScan_spec (nid : Nat) (t : AllocTable) (l : List Nat) :
    (∀ a t', allocateScan nid t l = some (a, t') →
      a ∈ l ∧ is_allocated t nid a = false ∧ t' = t ++ [⟨nid, a⟩]) ∧
    (allocateScan nid t l = none → ∀ b ∈ l, is_allocated t nid b = true) := by
  induction l with
  | nil => simp [allocateScan]
  | cons ip rest ih =>
    constructor
    · intro a t' h
      by_cases halloc : is_allocated t nid ip = true
      · simp only [allocateScan, halloc, if_pos] at h
        rcases (ih.1 a t' h) with ⟨hm, hf, ht⟩
        exact ⟨List.mem_cons_of_mem _ hm, hf, ht⟩
      · simp only [allocateScan, halloc, if_neg, Bool.false_eq_true,
          not_false_eq_true, Option.some.injEq, Prod.mk.injEq] at h
        rcases h with ⟨ha, ht⟩
        subst ha
        exact ⟨List.mem_cons_self _ _, by simpa using halloc, ht.symm⟩
    · intro h b hb
      by_cases halloc : is_allocated t nid ip = true
      · simp only [allocateScan, halloc, if_pos] at h
        rcases List.mem_cons.mp hb with hb | hb
        · subst hb; exact halloc
        · exact ih.2 h b hb
      · simp [allocateScan, halloc] at h

/-- When the scan succeeds, every earlier (hence smaller, the list being
strictly ascending) element was allocated. -/
theorem allocateScan_first (nid : Nat) (t : AllocTable) (l : List Nat)
    (hsorted : l.Pairwise (· < ·)) (a : Nat) (t' : AllocTable)
    (h : allocateScan nid t l = some (a, t')) :
    ∀ b ∈ l, b < a → is_allocated t nid b = true := by
  induction l with
  | nil => simp [allocateScan] at h
  | cons ip rest ih =>
    intro b hb hba
    by_cases halloc : is_allocated t nid ip = true
    · simp only [allocateScan, halloc, if_pos] at h
      rcases List.mem_cons.mp hb with hb | hb
      · subst hb; exact halloc
      · exact ih (List.Pairwise.of_cons hsorted) h b hb hba
    · simp only [allocateScan, halloc, if_neg, Bool.false_eq_true,
        not_false_eq_true, Option.some.injEq, Prod.mk.injEq] at h
      rcases h with ⟨ha, _⟩
      subst ha
      rcases List.mem_cons.mp hb with hb | hb
      · subst hb; exact absurd hba (lt_irrefl _)
      · exact absurd hba (not_lt.mpr (le_of_lt ((List.pairwise_cons.mp hsorted).1 b hb)))

theorem hosts_pairwise_lt (c : Cidr) : c.hosts.Pairwise (· < ·) := by
  unfold Cidr.hosts
  split <;> exact List.pairwise_lt_range' _ _ 1 (by omega)

/-- C2: `allocate(network, cidr, suggestedAddress?)`. A supplied suggestion
that lies inside the CIDR, is neither the network nor the broadcast address,
and has no allocation row in the network is recorded and returned; otherwise
(suggestion absent, invalid or taken) the first host address of the CIDR in
ascending numeric order with no allocation row is recorded and returned, and
when no free host address remains the call fails with the exhaustion error. -/
theorem c2_allocate_spec (nid : Nat) (c : Cidr) (suggested : Option Nat) (t : AllocTable) :
    (∀ s, suggested = some s → suggestionAccepted c nid t s = true →
        allocate nid c suggested t = .ok (s, t ++ [⟨nid, s⟩])) ∧
    ((suggested = none ∨ ∃ s, suggested = some s ∧ suggestionAccepted c nid t s = false) →
      ((∃ a, a ∈ c.hosts ∧ is_allocated t nid a = false ∧
          allocate nid c suggested t = .ok (a, t ++ [⟨nid, a⟩]) ∧
          ∀ b ∈ c.hosts, b < a → is_allocated t nid b = true) ∨
        ((∀ b ∈ c.hosts, is_allocated t nid b = true) ∧
          allocate nid c suggested t = .error "No free IP in subnet"))) := by
  constructor
  · intro s hs hacc
    subst hs
    simp [allocate, hacc]
  · intro hfall
    rcases hscan : allocateScan nid t c.hosts with _ | ⟨a, t'⟩
    · right
      refine ⟨(allocateScan_spec nid t c.hosts).2 hscan, ?_⟩
      rcases hfall with h | ⟨s, hs, hacc⟩
      · subst h; simp [allocate, hscan]
      · subst hs; simp [allocate, hacc, hscan]
    · left
      rcases (allocateScan_spec nid t c.hosts).1 a t' hscan with ⟨hm, hf, ht⟩
      refine ⟨a, hm, hf, ?_, allocateScan_first nid t c.hosts (hosts_pairwise_lt c) a t' hscan⟩
      rcases hfall with h | ⟨s, hs, hacc⟩
      · subst h; simp [allocate, hscan, ht]
      · subst hs; simp [allocate, hacc, hscan, ht]

/-- Witness for C2 at a concrete input: network 1, block 0.0.0.8/30
(hosts 9 and 10), suggestion 10 valid and free. -/
theorem c2_allocate_spec_witness :
    allocate 1 ⟨8, 30⟩ (some 10) [⟨1, 9⟩] = .ok (10, [⟨1, 9⟩, ⟨1, 10⟩]) :=
  (c2_allocate_spec 1 ⟨8, 30⟩ (some 10) [⟨1, 9⟩]).1 10 rfl (by decide)

/-! ### C1: concurrency of `allocate`

`IPAllocator.allocate` performs the free-address scan (`await
session.execute(select(...))`) and the record step (`session.add` +
`await session.flush()`) as separate awaits with no lock, and the
`allocated_ips` table has no uniqueness constraint on
(network_id, ip_address).  Under the event loop, a second request's scan can
run between the first request's scan and flush, so both scans observe the
same snapshot. -/

/-- The address decision `allocate` makes from a given table snapshot
(the value it returns and inserts). -/
def allocateDecide (nid : Nat) (c : Cidr) (suggested : Option Nat) (t : AllocTable) :
    Option Nat :=
  match allocate nid c suggested t with
  | .ok (a, _) => some a
  | .error _ => none

/-- C1 counterexample: for network 1 with block 0.0.0.8/30 (two usable host
addresses) and an empty allocation table, the interleaving scan A, scan B,
insert A, insert B has both requests decide on address 9 from the shared
snapshot, both inserts succeed (the schema declares no uniqueness constraint
on (network_id, ip_address), so nothing prevents the second insert), and the
resulting table holds the pair (1, 9) twice: the two concurrently returned
addresses are equal, not distinct. -/
theorem c1_concurrent_same_address_counterexample :
    allocateDecide 1 ⟨8, 30⟩ none [] = some 9 ∧
    (Cidr.hosts ⟨8, 30⟩).length = 2 ∧
    ¬ ["network_id", "ip_address"] ∈ allocatedIPsUniqueConstraints ∧
    List.count (⟨1, 9⟩ : AllocatedIPRow)
      ((([] : AllocTable) ++ [⟨1, 9⟩]) ++ [⟨1, 9⟩]) = 2 := by
  refine ⟨by decide, by decide, by decide, by decide⟩

theorem is_allocated_append (t l : AllocTable) (nid x : Nat)
    (h : is_allocated t nid x = true) : is_allocated (t ++ l) nid x = true := by
  simp only [is_allocated, List.any_append, Bool.or_eq_true]
  exact Or.inl h

theorem is_allocated_append_self (t : AllocTable) (nid a : Nat) :
    is_allocated (t ++ [⟨nid, a⟩]) nid a = true := by
  simp [is_allocated]

theorem allocate_none_ok (nid : Nat) (c : Cidr) (t : AllocTable) (a : Nat)
    (t' : AllocTable) (h : allocate nid c none t = .ok (a, t')) :
    a ∈ c.hosts ∧ is_allocated t nid a = false ∧ t' = t ++ [⟨nid, a⟩] := by
  rcases hscan : allocateScan nid t c.hosts with _ | ⟨b, tb⟩ <;>
    simp only [allocate, hscan] at h
  · cases h
  · cases h
    exact (allocateScan_spec nid t c.hosts).1 _ _ hscan

/-- `n` allocation requests run to completion one after another (each scan
sees every earlier insert). -/
def allocateSeq (nid : Nat) (c : Cidr) : Nat → AllocTable →
    Except String (List Nat × AllocTable)
  | 0, t => .ok ([], t)
  | n + 1, t =>
    match allocate nid c none t with
    | .error e => .error e
    | .ok (a, t1) =>
      match allocateSeq nid c n t1 with
      | .error e => .error e
      | .ok (as, t') => .ok (a :: as, t')

theorem allocateSeq_ok (nid : Nat) (c : Cidr) (n : Nat) (t : AllocTable)
    (as : List Nat) (t' : AllocTable) (h : allocateSeq nid c n t = .ok (as, t')) :
    as.Pairwise (· ≠ ·) ∧ (∀ a ∈ as, a ∈ c.hosts) ∧
    (∀ x, is_allocated t nid x = true → is_allocated t' nid x = true) ∧
    (∀ a ∈ as, is_allocated t nid a = false) := by
  induction n generalizing t as with
  | zero =>
    simp only [allocateSeq, Except.ok.injEq, Prod.mk.injEq] at h
    rcases h with ⟨h1, h2⟩
    subst h1
    subst h2
    simp
  | succ n ih =>
    simp only [allocateSeq] at h
    rcases halloc : allocate nid c none t with e | ⟨a, t1⟩ <;>
      simp only [halloc] at h
    · cases h
    rcases hseq : allocateSeq nid c n t1 with e | ⟨as', t2⟩ <;>
      simp only [hseq, Except.ok.injEq, Prod.mk.injEq] at h
    · cases h
    obtain ⟨h1, h2⟩ := h
    subst h1
    subst h2
    rcases allocate_none_ok nid c t a t1 halloc with ⟨hmem, hfree, ht1⟩
    rcases ih t1 as' hseq with ⟨hpw, hhosts, hmono, hfresh⟩
    have ha_t1 : is_allocated t1 nid a = true := ht1 ▸ is_allocated_append_self t nid a
    refine ⟨?_, ?_, ?_, ?_⟩
    · refine List.pairwise_cons.mpr ⟨fun b hb => ?_, hpw⟩
      intro hab
      subst hab
      exact absurd ha_t1 (by simp [hfresh a hb])
    · intro x hx
      rcases List.mem_cons.mp hx with hx | hx
      · subst hx; exact hmem
      · exact hhosts x hx
    · intro x hx
      exact hmono x (ht1 ▸ is_allocated_append t [⟨nid, a⟩] nid x hx)
    · intro x hx
      rcases List.mem_cons.mp hx with hx | hx
      · subst hx; exact hfree
      · by_contra hcon
        have : is_allocated t nid x = true := by
          cases hxa : is_allocated t nid x
          · exact absurd hxa hcon
          · rfl
        exact absurd (ht1 ▸ is_allocated_append t [⟨nid, a⟩] nid x this)
          (by simp [hfresh x hx])

theorem mem_hosts_between (c : Cidr) (hp : c.prefixlen ≤ 30) (a : Nat)
    (ha : a ∈ c.hosts) : c.networkAddress < a ∧ a < c.broadcastAddress := by
  have hsize : 4 ≤ c.size := by
    have h2 : 2 ≤ 32 - c.prefixlen := by omega
    calc 4 = 2 ^ 2 := rfl
      _ ≤ 2 ^ (32 - c.prefixlen) := Nat.pow_le_pow_right (by norm_num) h2
  unfold Cidr.hosts at ha
  rw [if_neg (by omega)] at ha
  rw [List.mem_range'_1] at ha
  unfold Cidr.broadcastAddress
  omega

/-- C1 amended: when allocation requests against one network run
sequentially (each request's scan observes every earlier request's recorded
allocation), the returned addresses are pairwise distinct and, for blocks
with prefix length at most 30, each lies strictly between the network and
broadcast addresses.  The code itself provides no atomicity for interleaved
requests and the schema carries no uniqueness constraint on
(network_id, ip_address) (see the counterexample). -/
theorem c1_sequential_allocation_unique (nid : Nat) (c : Cidr) (n : Nat)
    (t : AllocTable) (as : List Nat) (t' : AllocTable)
    (hp : c.prefixlen ≤ 30) (h : allocateSeq nid c n t = .ok (as, t')) :
    as.Pairwise (· ≠ ·) ∧
    ∀ a ∈ as, c.networkAddress < a ∧ a < c.broadcastAddress := by
  rcases allocateSeq_ok nid c n t as t' h with ⟨hpw, hhosts, -, -⟩
  exact ⟨hpw, fun a ha => mem_hosts_between c hp a (hhosts a ha)⟩

/-- Witness for the amended C1 at a concrete input: two sequential requests
against 0.0.0.8/30 return 9 then 10. -/
theorem c1_sequential_allocation_unique_witness :
    ([9, 10] : List Nat).Pairwise (· ≠ ·) ∧
    ∀ a ∈ ([9, 10] : List Nat),
      Cidr.networkAddress ⟨8, 30⟩ < a ∧ a < Cidr.broadcastAddress ⟨8, 30⟩ :=
  c1_sequential_allocation_unique 1 ⟨8, 30⟩ 2 [] [9, 10] [⟨1, 9⟩, ⟨1, 10⟩]
    (by decide) (by rfl)

/-! ### Encrypted store (`src/backend/services/encryption.py`)

Fernet is the external authenticated-encryption primitive; a well-formed
token is modelled as the constructor `token key plaintext`, any other byte
string as `junk`.  `MAGIC = b"NCENC\x01"` is a fixed prefix: `magicOk`
records whether the stored bytes start with it (plaintext PEM material does
not). -/

inductive FernetPayload where
  | token (key : Nat) (plaintext : String)
  | junk (data : String)
  deriving DecidableEq, Repr

structure CipherBytes where
  magicOk : Bool
  body : FernetPayload
  deriving DecidableEq, Repr

/-- Raw (legacy plaintext) file bytes: no magic prefix, not a Fernet token. -/
def plaintextBytes (s : String) : CipherBytes := ⟨false, .junk s⟩

/-- `encrypt(plaintext)`: MAGIC + Fernet token under the runtime key. -/
def encrypt (key : Nat) (plaintext : String) : CipherBytes :=
  ⟨true, .token key plaintext⟩

/-- `Fernet(key).decrypt(token)`: succeeds exactly on an intact token built
under the same key; anything else raises `InvalidToken`. -/
def fernetDecrypt (key : Nat) : FernetPayload → Option String
  | .token k p => if k == key then some p else none
  | .junk _ => none

/-- `decrypt(ciphertext)` (`encryption.py:44-53`): missing magic raises
`ValueError`; a Fernet failure is re-raised as `ValueError`. -/
def decrypt (key : Nat) (c : CipherBytes) : Except String String :=
  if !c.magicOk then
    .error "Invalid or missing encryption magic; data is not encrypted"
  else
    match fernetDecrypt key c.body with
    | some p => .ok p
    | none => .error "Decryption failed (invalid token or wrong key)"

/-! ### Cert store files (`src/backend/services/cert_store.py`) -/

abbrev FPath := List String
abbrev FileStore := List (FPath × CipherBytes)

def FileStore.read (fs : FileStore) (p : FPath) : Option CipherBytes :=
  (fs.find? fun e => e.1 == p).map (·.2)

def FileStore.write (fs : FileStore) (p : FPath) (v : CipherBytes) : FileStore :=
  (p, v) :: fs

def FileStore.pathExists (fs : FileStore) (p : FPath) : Bool :=
  (fs.read p).isSome

/-- `Path.unlink(missing_ok=True)`. -/
def FileStore.erase (fs : FileStore) (p : FPath) : FileStore :=
  fs.filter fun e => !(e.1 == p)

/-- `read_cert_store_file`: read bytes and decrypt; decryption errors
propagate. -/
def read_cert_store_file (key : Nat) (fs : FileStore) (p : FPath) :
    Except String String :=
  match fs.read p with
  | none => .error "FileNotFoundError"
  | some data => decrypt key data

/-- `write_cert_store_file`: encrypt content and write it. -/
def write_cert_store_file (key : Nat) (fs : FileStore) (p : FPath)
    (content : String) : FileStore :=
  fs.write p (encrypt key content)

/-- C8: for every persisted payload, decryption fails hard when the payload
lacks the magic prefix, is not an intact Fernet token (corruption), or was
encrypted under a different key; a payload is returned successfully only
when it is exactly `encrypt key p` for the returned plaintext `p`, and
`read_cert_store_file` likewise returns content only from such a payload —
no other payload is ever returned as if it were plaintext. -/
theorem c8_decrypt_hard_failure (key : Nat) (c : CipherBytes) :
    (c.magicOk = false →
      decrypt key c =
        .error "Invalid or missing encryption magic; data is not encrypted") ∧
    (∀ d, c.body = .junk d → ∃ e, decrypt key c = .error e) ∧
    (∀ k p, c.body = .token k p → k ≠ key → ∃ e, decrypt key c = .error e) ∧
    (∀ p, decrypt key c = .ok p → c = encrypt key p) ∧
    (∀ fs path p, read_cert_store_file key fs path = .ok p →
      FileStore.read fs path = some (encrypt key p)) := by
  obtain ⟨magicOk, body⟩ := c
  refine ⟨?_, ?_, ?_, ?_, ?_⟩
  · intro h
    subst h
    rfl
  · intro d hd
    subst hd
    cases magicOk <;> exact ⟨_, rfl⟩
  · intro k p hb hk
    subst hb
    cases magicOk
    · exact ⟨_, rfl⟩
    · refine ⟨"Decryption failed (invalid token or wrong key)", ?_⟩
      simp only [decrypt, fernetDecrypt, Bool.not_true, Bool.false_eq_true,
        if_false]
      rw [if_neg (by simpa using hk)]
  · intro p h
    cases magicOk
    · simp [decrypt] at h
    · rcases body with ⟨k, q⟩ | d
      · by_cases hk : k = key
        · subst hk
          simp only [decrypt, fernetDecrypt, beq_self_eq_true, if_true,
            Bool.not_true, Bool.false_eq_true, if_false, Except.ok.injEq] at h
          subst h
          rfl
        · simp only [decrypt, fernetDecrypt, Bool.not_true, Bool.false_eq_true,
            if_false] at h
          rw [if_neg (by simpa using hk)] at h
          cases h
      · simp [decrypt, fernetDecrypt] at h
  · intro fs path p h
    unfold read_cert_store_file at h
    rcases hread : FileStore.read fs path with _ | data <;> rw [hread] at h
    · cases h
    · have h4 : ∀ q, decrypt key data = .ok q → data = encrypt key q := by
        obtain ⟨m, b⟩ := data
        intro q hq
        cases m
        · simp [decrypt] at hq
        · rcases b with ⟨k, r⟩ | d
          · by_cases hk : k = key
            · subst hk
              simp only [decrypt, fernetDecrypt, beq_self_eq_true, if_true,
                Bool.not_true, Bool.false_eq_true, if_false,
                Except.ok.injEq] at hq
              subst hq
              rfl
            · simp only [decrypt, fernetDecrypt, Bool.not_true,
                Bool.false_eq_true, if_false] at hq
              rw [if_neg (by simpa using hk)] at hq
              cases hq
          · simp [decrypt, fernetDecrypt] at hq
      exact congrArg some (h4 p h)

/-- Witness for C8 at concrete payloads: a magicless payload, a corrupted
payload and a wrong-key token all fail. -/
theorem c8_decrypt_hard_failure_witness :
    decrypt 1 (plaintextBytes "PEM")
      = .error "Invalid or missing encryption magic; data is not encrypted" :=
  (c8_decrypt_hard_failure 1 (plaintextBytes "PEM")).1 rfl

/-! ### CA lifecycle (`src/backend/services/cert_manager.py:30-50`) -/

/-- `settings.cert_store_path` (src/backend/config.py). -/
def cert_store_path : String := "/var/lib/nebula-commander/certs"

/-- A `Network` row as the cert manager sees it (`db.py:22-53`). -/
structure NetworkRec where
  id : Nat
  name : String
  subnet : Cidr
  ca_cert_path : Option FPath := none
  ca_key_path : Option FPath := none
  deriving DecidableEq, Repr

def caCrtPath (nid : Nat) : FPath := [cert_store_path, toString nid, "ca.crt"]

def caKeyPath (nid : Nat) : FPath := [cert_store_path, toString nid, "ca.key"]

def hostCrtPath (nid : Nat) (hostname : String) : FPath :=
  [cert_store_path, toString nid, "hosts", hostname ++ ".crt"]

def hostKeyPath (nid : Nat) (hostname : String) : FPath :=
  [cert_store_path, toString nid, "hosts", hostname ++ ".key"]

/-- `ca_generate` (external `nebula-cert ca`, `utils/nebula_cert.py:111-127`):
creates the CA cert and key files as plaintext PEM. -/
def ca_generate (name : String) (crt key : FPath) (fs : FileStore) : FileStore :=
  (fs.write crt (plaintextBytes ("CA-CERT " ++ name))).write key
    (plaintextBytes ("CA-KEY " ++ name))

/-- `Path.read_text()` of a stored file; in `ensure_ca` it is applied only to
the plaintext files `ca_generate` just wrote. -/
def CipherBytes.readText : CipherBytes → String
  | ⟨_, .junk s⟩ => s
  | ⟨_, .token _ s⟩ => s

/-- `CertManager.ensure_ca(network)`: no-op when CA material is recorded and
present; adopt unrecorded on-store CA files; otherwise invoke the external
tool (counted by the last component) and persist the material encrypted. -/
def ensure_ca (key : Nat) (net : NetworkRec) (fs : FileStore) (generated : Nat) :
    NetworkRec × FileStore × Nat :=
  if (match net.ca_cert_path with
      | some p => fs.pathExists p
      | none => false) then
    (net, fs, generated)
  else
    let crt := caCrtPath net.id
    let caKey := caKeyPath net.id
    if fs.pathExists crt && fs.pathExists caKey then
      ({ net with ca_cert_path := some crt, ca_key_path := some caKey }, fs,
        generated)
    else
      let fs1 := ca_generate net.name crt caKey fs
      let crtText := match fs1.read crt with | some b => b.readText | none => ""
      let keyText := match fs1.read caKey with | some b => b.readText | none => ""
      let fs2 := write_cert_store_file key
        (write_cert_store_file key fs1 crt crtText) caKey keyText
      ({ net with ca_cert_path := some crt, ca_key_path := some caKey }, fs2,
        generated + 1)

theorem pathExists_write_self (fs : FileStore) (p : FPath) (v : CipherBytes) :
    (fs.write p v).pathExists p = true := by
  simp [FileStore.pathExists, FileStore.read, FileStore.write, List.find?]

theorem caCrtPath_ne_caKeyPath (nid : Nat) : caCrtPath nid ≠ caKeyPath nid := by
  simp [caCrtPath, caKeyPath]

theorem pathExists_write_of_ne (fs : FileStore) (p q : FPath) (v : CipherBytes)
    (h : p ≠ q) : (fs.write q v).pathExists p = fs.pathExists p := by
  simp only [FileStore.pathExists, FileStore.read, FileStore.write, List.find?]
  rw [show ((q, v).1 == p) = false by simpa using fun hc => h hc.symm]

/-- After any `ensure_ca` call the network records a CA cert path that is
present on the store. -/
theorem ensure_ca_establishes (key : Nat) (net : NetworkRec) (fs : FileStore)
    (g : Nat) :
    ∃ p, (ensure_ca key net fs g).1.ca_cert_path = some p ∧
      (ensure_ca key net fs g).2.1.pathExists p = true := by
  unfold ensure_ca
  by_cases h1 : (match net.ca_cert_path with
      | some p => fs.pathExists p
      | none => false) = true
  · rw [if_pos h1]
    rcases hp : net.ca_cert_path with _ | p
    · rw [hp] at h1; cases h1
    · rw [hp] at h1
      exact ⟨p, rfl, h1⟩
  · rw [if_neg h1]
    by_cases h2 : (fs.pathExists (caCrtPath net.id)
        && fs.pathExists (caKeyPath net.id)) = true
    · rw [if_pos h2]
      exact ⟨caCrtPath net.id, rfl, (Bool.and_eq_true _ _ |>.mp h2).1⟩
    · rw [if_neg h2]
      refine ⟨caCrtPath net.id, rfl, ?_⟩
      dsimp only [write_cert_store_file]
      rw [pathExists_write_of_ne _ _ _ _ (caCrtPath_ne_caKeyPath net.id)]
      exact pathExists_write_self _ _ _

/-- C3: `ensure_ca` is idempotent: whatever the starting state, the second
of two successive calls on the same network is a no-op that changes nothing
and does not invoke the external generate-CA tool; a single call invokes
the tool at most once, and exactly once from a fresh state (no recorded CA,
no CA files on the store); and when CA files exist on the store but are
unrecorded (or the recorded file is missing), the call adopts them —
recording their locations without touching the store and without invoking
the tool. -/
theorem c3_ensure_ca_idempotent (key : Nat) (net : NetworkRec)
    (fs : FileStore) (g : Nat) :
    (ensure_ca key (ensure_ca key net fs g).1 (ensure_ca key net fs g).2.1
        (ensure_ca key net fs g).2.2 = ensure_ca key net fs g) ∧
    ((ensure_ca key net fs g).2.2 ≤ g + 1) ∧
    (net.ca_cert_path = none →
      fs.pathExists (caCrtPath net.id) = false →
      (ensure_ca key net fs g).2.2 = g + 1) ∧
    ((match net.ca_cert_path with
        | some p => fs.pathExists p
        | none => false) = false →
      fs.pathExists (caCrtPath net.id) = true →
      fs.pathExists (caKeyPath net.id) = true →
      ensure_ca key net fs g =
        ({ net with
            ca_cert_path := some (caCrtPath net.id),
            ca_key_path := some (caKeyPath net.id) }, fs, g)) := by
  refine ⟨?_, ?_, ?_, ?_⟩
  · rcases ensure_ca_establishes key net fs g with ⟨p, hp, hex⟩
    rcases hr : ensure_ca key net fs g with ⟨n1, f1, g1⟩
    rw [hr] at hp hex
    simp only at hp hex
    unfold ensure_ca
    rw [if_pos (by rw [hp]; exact hex)]
  · unfold ensure_ca
    by_cases h1 : (match net.ca_cert_path with
        | some p => fs.pathExists p
        | none => false) = true
    · rw [if_pos h1]; exact Nat.le_succ g
    · rw [if_neg h1]
      by_cases h2 : (fs.pathExists (caCrtPath net.id)
          && fs.pathExists (caKeyPath net.id)) = true
      · rw [if_pos h2]; exact Nat.le_succ g
      · rw [if_neg h2]
  · intro hnone hmiss
    unfold ensure_ca
    rw [hnone]
    rw [if_neg (by simp)]
    rw [if_neg (by simp [hmiss])]
  · intro h1 hcrt hkey
    unfold ensure_ca
    rw [if_neg (by simp [h1])]
    rw [if_pos (by simp [hcrt, hkey])]

/-- Witness for C3: a fresh network (nothing recorded, empty store)
generates exactly one CA across two successive calls. -/
theorem c3_ensure_ca_idempotent_witness :
    ensure_ca 7 (ensure_ca 7 ⟨1, "net", ⟨8, 30⟩, none, none⟩ [] 0).1
        (ensure_ca 7 ⟨1, "net", ⟨8, 30⟩, none, none⟩ [] 0).2.1
        (ensure_ca 7 ⟨1, "net", ⟨8, 30⟩, none, none⟩ [] 0).2.2 =
      ensure_ca 7 ⟨1, "net", ⟨8, 30⟩, none, none⟩ [] 0 ∧
    (ensure_ca 7 ⟨1, "net", ⟨8, 30⟩, none, none⟩ [] 0).2.2 = 0 + 1 :=
  ⟨(c3_ensure_ca_idempotent 7 ⟨1, "net", ⟨8, 30⟩, none, none⟩ [] 0).1,
    (c3_ensure_ca_idempotent 7 ⟨1, "net", ⟨8, 30⟩, none, none⟩ [] 0).2.2.1 rfl
      rfl⟩

/-! ### Firewall translation (`src/backend/services/config_generator.py`)

Python strings are modelled as `List Char` with executable ASCII
counterparts of `strip`/`lower`/`split`/`in`.  Python's `int()` additionally
accepts underscore digit grouping and non-ASCII digits; those inputs are not
modelled (they do not affect the port tokens at issue). -/

abbrev PyStr := List Char

/-- `str.strip()` (ASCII whitespace). -/
def pyStrip (s : PyStr) : PyStr :=
  ((s.dropWhile Char.isWhitespace).reverse.dropWhile Char.isWhitespace).reverse

/-- `str.lower()`. -/
def pyLower (s : PyStr) : PyStr := s.map Char.toLower

/-- Python `x or y` for an optional string field: the left operand when it
is present and non-empty (truthy), else the right operand. -/
def pyOr (a : Option PyStr) (b : PyStr) : PyStr :=
  match a with
  | some s => if s.isEmpty then b else s
  | none => b

def splitOnCharAux (c : Char) : List Char → List Char → List (List Char)
  | [], acc => [acc.reverse]
  | x :: xs, acc =>
    if x = c then acc.reverse :: splitOnCharAux c xs []
    else splitOnCharAux c xs (x :: acc)

/-- `str.split(c)` for a one-character separator. -/
def pySplitOnChar (c : Char) (s : PyStr) : List PyStr := splitOnCharAux c s []

def digitsToNat (cs : List Char) : Nat :=
  cs.foldl (fun a c => 10 * a + (c.toNat - 48)) 0

/-- `int(s)` on a stripped string: optional sign then decimal digits;
anything else raises `ValueError` (`none`). -/
def pyInt (s : PyStr) : Option Int :=
  match s with
  | '-' :: rest =>
    if !rest.isEmpty && rest.all Char.isDigit then
      some (-(digitsToNat rest : Int))
    else none
  | '+' :: rest =>
    if !rest.isEmpty && rest.all Char.isDigit then
      some ((digitsToNat rest : Int))
    else none
  | cs =>
    if !cs.isEmpty && cs.all Char.isDigit then
      some ((digitsToNat cs : Int))
    else none

/-- One `for part in s.split(",")` step of `_parse_port_range`
(`config_generator.py:126-152`). -/
def portRangeStep (acc : List Nat) (part0 : PyStr) : List Nat :=
  let part := pyStrip part0
  if part.contains '-' then
    let a := part.takeWhile (· ≠ '-')
    let b := (part.dropWhile (· ≠ '-')).drop 1
    match pyInt (pyStrip a), pyInt (pyStrip b) with
    | some lo, some hi =>
      if lo ≤ hi ∧ 0 ≤ lo ∧ lo ≤ 65535 ∧ 0 ≤ hi ∧ hi ≤ 65535 then
        acc ++ List.range' lo.toNat (hi + 1 - lo).toNat
      else acc
    | _, _ => acc
  else
    match pyInt part with
    | some p => if 0 ≤ p ∧ p ≤ 65535 then acc ++ [p.toNat] else acc
    | none => acc

/-- `_parse_port_range(port_range)`: `none` is Python's `None` ("any"). -/
def parse_port_range (port_range : PyStr) : Option (List Nat) :=
  let s := pyLower (pyStrip port_range)
  if s.isEmpty ∨ s = "any".data then none
  else
    let ports := (pySplitOnChar ',' s).foldl portRangeStep []
    if ports.isEmpty then none else some ports

/-- A firewall rule as stored (untyped dict with optional fields; a present
`port` key is modelled after `str()` conversion). -/
structure FwRuleIn where
  allowed_group : Option PyStr := none
  group : Option PyStr := none
  protocol : Option PyStr := none
  proto : Option PyStr := none
  port_range : Option PyStr := none
  port : Option PyStr := none
  deriving DecidableEq, Repr

/-- `(r.get("allowed_group") or r.get("group") or "").strip()`. -/
def normGroup (r : FwRuleIn) : PyStr :=
  pyStrip (pyOr r.allowed_group (pyOr r.group []))

def protoAllowed : List PyStr := ["any".data, "tcp".data, "udp".data, "icmp".data]

/-- `(r.get("protocol") or r.get("proto") or "any").strip().lower()`, mapped
to "any" when outside the allowed set. -/
def normProto (r : FwRuleIn) : PyStr :=
  let p := pyLower (pyStrip (pyOr r.protocol (pyOr r.proto "any".data)))
  if protoAllowed.contains p then p else "any".data

/-- `(r.get("port_range") or str(r.get("port", "any")).strip() or "any").strip()`. -/
def normPortRange (r : FwRuleIn) : PyStr :=
  let inner := match r.port with
    | some v => pyStrip v
    | none => "any".data
  pyStrip (pyOr r.port_range (if inner.isEmpty then "any".data else inner))

inductive PortSpec where
  | any
  | num (n : Nat)
  deriving DecidableEq, Repr

/-- The `host`/`group` key of an emitted Nebula rule. -/
inductive RuleTarget where
  | host (h : PyStr)
  | group (g : PyStr)
  deriving DecidableEq, Repr

structure NebulaRule where
  port : PortSpec
  proto : PyStr
  target : RuleTarget
  deriving DecidableEq, Repr

/-- The rules one loop iteration of `_inbound_rules_from_group_firewall`
appends for rule `r`: nothing when the source group is empty, a single
port-"any" rule when `_parse_port_range` returns `None`, else one rule per
parsed port. -/
def expandRule (r : FwRuleIn) : List NebulaRule :=
  let g := normGroup r
  if g.isEmpty then []
  else
    match parse_port_range (normPortRange r) with
    | none => [⟨.any, normProto r, .group g⟩]
    | some ps => ps.map fun p => ⟨.num p, normProto r, .group g⟩

/-- `_inbound_rules_from_group_firewall(inbound_rules)`
(`config_generator.py:155-179`). -/
def inbound_rules_from_group_firewall (rules : List FwRuleIn) : List NebulaRule :=
  rules.foldl (fun acc r => acc ++ expandRule r) []

/-- `{"port": "any", "proto": "any", "host": "any"}`. -/
def allowAllInbound : NebulaRule := ⟨.any, "any".data, .host "any".data⟩

/-- A `NetworkGroupFirewall` row (`db.py:56-71`); a `NULL` rules column is
the empty list. -/
structure GroupFirewallRec where
  group_name : PyStr
  inbound_rules : List FwRuleIn := []
  deriving DecidableEq, Repr

/-- The `group_by_name` dict lookup: entries with falsy names are skipped
and a later entry overwrites an earlier one with the same name. -/
def groupFirewallLookup (gfs : List GroupFirewallRec) (g : PyStr) :
    Option GroupFirewallRec :=
  (gfs.filter fun x => !x.group_name.isEmpty).reverse.find?
    fun x => x.group_name == g

/-- The variable part of `_firewall_section(network, node, group_firewalls)`
(`config_generator.py:182-214`): the inbound rules and the optional
`inbound_action` key (conntrack and the outbound allow-all entry are
constants). -/
structure FirewallSection where
  inbound : List NebulaRule
  inbound_action : Option PyStr
  deriving DecidableEq, Repr

def firewall_section (groups : List PyStr) (gfs : List GroupFirewallRec) :
    FirewallSection :=
  let node_group : Option PyStr :=
    match groups with
    | [] => none
    | g :: _ => some g
  let gf : Option GroupFirewallRec :=
    match node_group with
    | some g => if g.isEmpty then none else groupFirewallLookup gfs g
    | none => none
  let raw := match gf with | some x => x.inbound_rules | none => []
  if raw.isEmpty then ⟨[allowAllInbound], none⟩
  else
    let nr := inbound_rules_from_group_firewall raw
    ⟨if nr.isEmpty then [allowAllInbound] else nr, some "drop".data⟩

theorem portRangeStep_bound (acc : List Nat) (part : PyStr)
    (h : ∀ p ∈ acc, p ≤ 65535) : ∀ p ∈ portRangeStep acc part, p ≤ 65535 := by
  intro p hp
  unfold portRangeStep at hp
  dsimp only at hp
  split at hp
  · split at hp
    · split at hp
      · rename_i hcond
        rcases List.mem_append.mp hp with hp | hp
        · exact h p hp
        · rw [List.mem_range'_1] at hp
          omega
      · exact h p hp
    · exact h p hp
  · split at hp
    · split at hp
      · rename_i hcond
        rcases List.mem_append.mp hp with hp | hp
        · exact h p hp
        · rcases List.mem_singleton.mp hp with rfl
          omega
      · exact h p hp
    · exact h p hp

theorem foldl_portRangeStep_bound (parts : List PyStr) (acc : List Nat)
    (h : ∀ p ∈ acc, p ≤ 65535) :
    ∀ p ∈ parts.foldl portRangeStep acc, p ≤ 65535 := by
  induction parts generalizing acc with
  | nil => exact h
  | cons part rest ih =>
    exact ih (portRangeStep acc part) (portRangeStep_bound acc part h)

theorem parse_port_range_bound (pr : PyStr) (ps : List Nat)
    (h : parse_port_range pr = some ps) : ∀ p ∈ ps, p ≤ 65535 := by
  unfold parse_port_range at h
  by_cases h1 : (pyLower (pyStrip pr)).isEmpty = true ∨ pyLower (pyStrip pr) = "any".data
  · rw [if_pos h1] at h; cases h
  · rw [if_neg h1] at h
    by_cases h2 : ((pySplitOnChar ',' (pyLower (pyStrip pr))).foldl portRangeStep
        []).isEmpty = true
    · rw [if_pos h2] at h; cases h
    · rw [if_neg h2] at h
      cases h
      exact foldl_portRangeStep_bound _ [] (by simp)

theorem foldl_expand_append (rules : List FwRuleIn) (acc : List NebulaRule) :
    rules.foldl (fun a r => a ++ expandRule r) acc =
      acc ++ rules.foldl (fun a r => a ++ expandRule r) [] := by
  induction rules generalizing acc with
  | nil => simp
  | cons r rest ih =>
    simp only [List.foldl_cons]
    rw [ih (acc ++ expandRule r), ih ([] ++ expandRule r)]
    simp

/-- C5 counterexample: for the rule `{allowed_group: "web", protocol: "tcp",
port_range: "70000"}` the union of in-range listed ports is empty (the only
token is out of 0–65535 and `_parse_port_range` drops it, returning `None`),
so the claimed expansion — one low-level rule per concrete port number —
would be empty; the code instead emits exactly one rule with port "any",
granting the group access to every port. -/
theorem c5_invalid_tokens_counterexample :
    parse_port_range "70000".data = none ∧
    inbound_rules_from_group_firewall
        [⟨some "web".data, none, some "tcp".data, none, some "70000".data, none⟩] =
      [⟨.any, "tcp".data, .group "web".data⟩] ∧
    inbound_rules_from_group_firewall
        [⟨some "web".data, none, some "tcp".data, none, some "70000".data, none⟩] ≠
      [] := by
  refine ⟨by decide, by decide, by decide⟩

/-- C5 amended: a port specification of "any" emits exactly one rule with
port "any"; an explicit list/range with at least one parseable in-range
token emits one rule per concrete port in the union of listed ports and
range members, each carrying the rule's (normalized) source group and
protocol, with tokens outside 0–65535 or with malformed range syntax
silently dropped; but when every token is dropped the specification is
treated like "any" and a single port-"any" rule is emitted (rather than
zero rules).  `port_range = "22,80-82"`, protocol tcp, group web yields
exactly the four rules 22, 80, 81, 82. -/
theorem c5_port_expansion (r : FwRuleIn) (rules : List FwRuleIn) (pr : PyStr)
    (ps : List Nat) :
    (inbound_rules_from_group_firewall (r :: rules) =
      expandRule r ++ inbound_rules_from_group_firewall rules) ∧
    (normGroup r ≠ [] → parse_port_range (normPortRange r) = none →
      expandRule r = [⟨.any, normProto r, .group (normGroup r)⟩]) ∧
    (normGroup r ≠ [] → parse_port_range (normPortRange r) = some ps →
      expandRule r = ps.map fun p => ⟨.num p, normProto r, .group (normGroup r)⟩) ∧
    (parse_port_range pr = some ps → ∀ p ∈ ps, p ≤ 65535) ∧
    (inbound_rules_from_group_firewall
        [⟨some "web".data, none, some "tcp".data, none, some "22,80-82".data, none⟩] =
      [⟨.num 22, "tcp".data, .group "web".data⟩,
       ⟨.num 80, "tcp".data, .group "web".data⟩,
       ⟨.num 81, "tcp".data, .group "web".data⟩,
       ⟨.num 82, "tcp".data, .group "web".data⟩]) ∧
    (inbound_rules_from_group_firewall
        [⟨some "web".data, none, some "tcp".data, none, some "any".data, none⟩] =
      [⟨.any, "tcp".data, .group "web".data⟩]) := by
  refine ⟨?_, ?_, ?_, parse_port_range_bound pr ps, by decide, by decide⟩
  · unfold inbound_rules_from_group_firewall
    simp only [List.foldl_cons, List.nil_append]
    exact foldl_expand_append rules (expandRule r)
  · intro hg hparse
    unfold expandRule
    rw [if_neg (by simpa [List.isEmpty_iff] using hg), hparse]
  · intro hg hparse
    unfold expandRule
    rw [if_neg (by simpa [List.isEmpty_iff] using hg), hparse]

/-- Witness for C5 (amended) at a concrete input: the all-tokens-dropped
rule expands to the single port-"any" rule. -/
theorem c5_port_expansion_witness :
    expandRule ⟨some "web".data, none, some "tcp".data, none, some "70000".data, none⟩ =
      [⟨.any, "tcp".data, .group "web".data⟩] :=
  (c5_port_expansion
      ⟨some "web".data, none, some "tcp".data, none, some "70000".data, none⟩
      [] [] []).2.1 (by decide) (by decide)

/-- C9: when the node's group has a Group Firewall entry whose rule list is
non-empty but every rule is filtered out of the expansion (for example,
every rule's allowed source group is empty or missing), the synthesized
firewall section carries `inbound_action = "drop"` together with a single
allow-all inbound rule; whereas the no-entry / empty-rule-list case yields
the allow-all inbound rule with no `inbound_action` key at all. -/
theorem c9_drop_with_allow_all (groups : List PyStr)
    (gfs : List GroupFirewallRec) (g : PyStr) (entry : GroupFirewallRec) :
    (groups.head? = some g → g.isEmpty = false →
      groupFirewallLookup gfs g = some entry →
      entry.inbound_rules ≠ [] →
      inbound_rules_from_group_firewall entry.inbound_rules = [] →
      firewall_section groups gfs = ⟨[allowAllInbound], some "drop".data⟩) ∧
    (groups.head? = none →
      firewall_section groups gfs = ⟨[allowAllInbound], none⟩) ∧
    (groups.head? = some g → g.isEmpty = false →
      groupFirewallLookup gfs g = none →
      firewall_section groups gfs = ⟨[allowAllInbound], none⟩) ∧
    (groups.head? = some g → g.isEmpty = false →
      groupFirewallLookup gfs g = some entry →
      entry.inbound_rules = [] →
      firewall_section groups gfs = ⟨[allowAllInbound], none⟩) := by
  refine ⟨?_, ?_, ?_, ?_⟩
  · intro hhead hne hlook hrules hexp
    rcases groups with _ | ⟨g0, rest⟩
    · cases hhead
    · rcases Option.some.injEq _ _ ▸ hhead with rfl
      unfold firewall_section
      simp only [hne, Bool.false_eq_true, if_false, hlook]
      rw [if_neg (by simpa [List.isEmpty_iff] using hrules)]
      rw [hexp]
      simp
  · intro hhead
    rcases groups with _ | ⟨g0, rest⟩
    · rfl
    · cases hhead
  · intro hhead hne hlook
    rcases groups with _ | ⟨g0, rest⟩
    · cases hhead
    · rcases Option.some.injEq _ _ ▸ hhead with rfl
      unfold firewall_section
      simp [hne, hlook]
  · intro hhead hne hlook hrules
    rcases groups with _ | ⟨g0, rest⟩
    · cases hhead
    · rcases Option.some.injEq _ _ ▸ hhead with rfl
      unfold firewall_section
      simp [hne, hlook, hrules]

/-- Witness for C9 at a concrete input: group "web" has an entry with one
rule whose allowed source group is empty, so the expansion is empty and the
section is drop + allow-all; with no entry it is allow-all without the key. -/
theorem c9_drop_with_allow_all_witness :
    firewall_section ["web".data] [⟨"web".data, [⟨some [], none, none, none, none, none⟩]⟩] =
      ⟨[allowAllInbound], some "drop".data⟩ ∧
    firewall_section ["web".data] [] = ⟨[allowAllInbound], none⟩ :=
  ⟨(c9_drop_with_allow_all ["web".data]
      [⟨"web".data, [⟨some [], none, none, none, none, none⟩]⟩] "web".data
      ⟨"web".data, [⟨some [], none, none, none, none, none⟩]⟩).1
      rfl (by decide) (by decide) (by decide) (by decide),
   (c9_drop_with_allow_all ["web".data] [] "web".data ⟨[], []⟩).2.2.1
      rfl (by decide) (by decide)⟩

/-! ### Signing-tool address argument (`src/backend/utils/nebula_cert.py:130-168`)

`cert_sign` builds the `-ip` argument: it strips any `/suffix` from the
allocated address and, when `subnet_cidr` is supplied, appends the parsed
network's prefix length.  All three signing call sites
(`cert_manager.py:89-99`, `142-152` and `209-219`) pass
`subnet_cidr=network.subnet_cidr`. -/

def digitChar (d : Nat) : Char :=
  if d = 0 then '0' else if d = 1 then '1' else if d = 2 then '2'
  else if d = 3 then '3' else if d = 4 then '4' else if d = 5 then '5'
  else if d = 6 then '6' else if d = 7 then '7' else if d = 8 then '8'
  else '9'

def natDigitsAux : Nat → Nat → List Char
  | 0, _ => []
  | fuel + 1, n =>
    if n = 0 then [] else natDigitsAux fuel (n / 10) ++ [digitChar (n % 10)]

/-- Decimal rendering of a natural number (the f-string interpolation of
`net.prefixlen`). -/
def natToChars (n : Nat) : PyStr :=
  if n = 0 then ['0'] else natDigitsAux (n + 1) n

/-- `ip.split("/")[0]`. -/
def splitHeadSlash (s : PyStr) : PyStr := s.takeWhile (· ≠ '/')

/-- The `-ip` argument `cert_sign` passes to `nebula-cert sign`
(`nebula_cert.py:147-154`). -/
def cert_sign_ip_cidr (ip : PyStr) (subnet : Option Cidr) : PyStr :=
  let ipBase := pyStrip (splitHeadSlash ip)
  match subnet with
  | some net => ipBase ++ '/' :: natToChars net.prefixlen
  | none => if ip.contains '/' then ip else ipBase ++ '/' :: ['3', '2']

/-- The `-ip` argument produced for a host signing operation: every signing
call site (betterkeys `sign_host`, server-keypair `create_host_certificate`
and `create_host_certificate_for_existing_node`) passes the network's
`subnet_cidr`. -/
def sign_host_ip_arg (net : NetworkRec) (ip : PyStr) : PyStr :=
  cert_sign_ip_cidr ip (some net.subnet)

/-- The prefix-length component of a CIDR string: the segment after the
last '/'. -/
def cidrSuffix (s : PyStr) : PyStr :=
  (s.reverse.takeWhile (· ≠ '/')).reverse

theorem digitChar_ne_slash (d : Nat) : digitChar d ≠ '/' := by
  unfold digitChar
  repeat' split
  all_goals decide

theorem natDigitsAux_ne_slash (fuel n : Nat) :
    ∀ c ∈ natDigitsAux fuel n, c ≠ '/' := by
  induction fuel generalizing n with
  | zero => intro c hc; cases hc
  | succ fuel ih =>
    intro c hc
    unfold natDigitsAux at hc
    by_cases hn : n = 0
    · rw [if_pos hn] at hc; cases hc
    · rw [if_neg hn] at hc
      rcases List.mem_append.mp hc with hc | hc
      · exact ih (n / 10) c hc
      · rcases List.mem_singleton.mp hc with rfl
        exact digitChar_ne_slash _

theorem natToChars_ne_slash (n : Nat) : ∀ c ∈ natToChars n, c ≠ '/' := by
  intro c hc
  unfold natToChars at hc
  by_cases hn : n = 0
  · rw [if_pos hn] at hc
    rcases List.mem_singleton.mp hc with rfl
    decide
  · rw [if_neg hn] at hc
    exact natDigitsAux_ne_slash _ _ c hc

theorem takeWhile_append_all (p : Char → Bool) (l1 : List Char) (x : Char)
    (l2 : List Char) (h1 : ∀ c ∈ l1, p c = true) (hx : p x = false) :
    (l1 ++ x :: l2).takeWhile p = l1 := by
  induction l1 with
  | nil => simp [List.takeWhile, hx]
  | cons a l ih =>
    simp only [List.cons_append, List.takeWhile]
    rw [h1 a (List.mem_cons_self a l)]
    exact congrArg (a :: ·) (ih fun c hc => h1 c (List.mem_cons_of_mem a hc))

theorem cidrSuffix_append (xs ys : PyStr) (hys : ∀ c ∈ ys, c ≠ '/') :
    cidrSuffix (xs ++ '/' :: ys) = ys := by
  unfold cidrSuffix
  have hrev : (xs ++ '/' :: ys).reverse = ys.reverse ++ '/' :: xs.reverse := by
    simp
  rw [hrev, takeWhile_append_all _ ys.reverse '/' xs.reverse
    (fun c hc => by simpa using hys c (List.mem_reverse.mp hc)) (by decide),
    List.reverse_reverse]

/-- C4: for every host-certificate signing operation (betterkeys and both
server-generated-keypair paths) the `-ip` argument submitted to the external
tool is `<address>/<network prefix length>` — the prefix component is the
decimal rendering of the network's prefix length, never a host `/32`
(unless the network itself is a /32); e.g. for a network with CIDR
10.100.0.0/24 the signed certificate's prefix is 24. -/
theorem c4_cert_sign_uses_network_prefix (net : NetworkRec) (ip : PyStr) :
    sign_host_ip_arg net ip =
      pyStrip (splitHeadSlash ip) ++ '/' :: natToChars net.subnet.prefixlen ∧
    cidrSuffix (sign_host_ip_arg net ip) = natToChars net.subnet.prefixlen ∧
    cidrSuffix
        (sign_host_ip_arg ⟨1, "prod", ⟨174325760, 24⟩, none, none⟩
          "10.100.0.7".data) = "24".data ∧
    ("24".data : PyStr) ≠ "32".data := by
  refine ⟨rfl, ?_, by decide, by decide⟩
  exact cidrSuffix_append _ _ (natToChars_ne_slash net.subnet.prefixlen)

/-! ### Node API handlers (`src/backend/api/nodes.py`)

Database state is a record of tables; `get_session` (`database.py:331-341`)
commits on success and rolls back on exception, so an `.error` result leaves
the durable state unchanged (`applyResult`).  Timestamps are abstract
naturals (days); `datetime.utcnow()` is the `now` parameter and
`timedelta(days=d)` is addition. -/

structure NodeRec where
  id : Nat
  network_id : Nat
  hostname : String
  ip_address : Option Nat := none
  public_key : Option String := none
  cert_fingerprint : Option String := none
  groups : List PyStr := []
  is_lighthouse : Bool := false
  is_relay : Bool := false
  public_endpoint : Option PyStr := none
  lighthouse_options : Option String := none
  logging_options : Option String := none
  punchy_options : Option String := none
  status : String := "pending"
  deriving DecidableEq, Repr

/-- A `Certificate` row (`db.py:112-124`; `cert_path` is always `None` on
the paths modelled here). -/
structure CertRec where
  node_id : Nat
  issued_at : Nat
  expires_at : Nat
  revoked_at : Option Nat := none
  deriving DecidableEq, Repr

/-- The durable state the node handlers touch; `network_configs` and
`enrollment_codes` rows are reduced to their `node_id` column. -/
structure St where
  networks : List NetworkRec := []
  nodes : List NodeRec := []
  certificates : List CertRec := []
  network_configs : List Nat := []
  enrollment_codes : List Nat := []
  allocated_ips : AllocTable := []
  fs : FileStore := []
  generated : Nat := 0
  deriving DecidableEq, Repr

structure HErr where
  status : Nat
  detail : String
  deriving DecidableEq, Repr

/-- `get_session`: commit the handler's state on success, roll back on
exception. -/
def applyResult (st : St) : Except HErr St → St
  | .ok s => s
  | .error _ => st

/-- The `NodeUpdate` request body (`nodes.py:28-37`). -/
structure NodeUpdate where
  group : Option PyStr := none
  is_lighthouse : Option Bool := none
  is_relay : Option Bool := none
  public_endpoint : Option PyStr := none
  lighthouse_options : Option String := none
  logging_options : Option String := none
  punchy_options : Option String := none
  deriving DecidableEq, Repr

/-- `select(func.count(Node.id)).where(network_id == ..., is_lighthouse)`. -/
def lighthouseCount (nodes : List NodeRec) (netId : Nat) : Nat :=
  (nodes.filter fun n => n.network_id == netId && n.is_lighthouse).length

/-- Writing a mutated ORM node back: the row keyed by `nodeId` is replaced. -/
def replaceNode (nodes : List NodeRec) (nodeId : Nat) (n' : NodeRec) :
    List NodeRec :=
  nodes.map fun n => if n.id == nodeId then n' else n

/-- The updates `update_node` applies after the lighthouse check
(`nodes.py:229-238`). -/
def applyRest (node : NodeRec) (b : NodeUpdate) : NodeRec :=
  let n1 := match b.is_relay with
    | some v => { node with is_relay := v }
    | none => node
  let n2 := match b.public_endpoint with
    | some e => { n1 with
        public_endpoint := if (pyStrip e).isEmpty then none else some (pyStrip e) }
    | none => n1
  let n3 := match b.lighthouse_options with
    | some v => { n2 with lighthouse_options := some v }
    | none => n2
  let n4 := match b.logging_options with
    | some v => { n3 with logging_options := some v }
    | none => n3
  match b.punchy_options with
  | some v => { n4 with punchy_options := some v }
  | none => n4

/-- The group assignment step of `update_node` (`nodes.py:211-212`). -/
def applyGroup (node : NodeRec) : Option PyStr → NodeRec
  | some g =>
    { node with groups := if !g.isEmpty && !(pyStrip g).isEmpty then [g] else [] }
  | none => node

def setLighthouse (node : NodeRec) (v : Bool) : NodeRec :=
  { node with is_lighthouse := v }

/-- `PATCH /api/nodes/{id}` (`nodes.py:199-240`).  The group assignment
precedes the lighthouse check in the handler; on the 409 the session is
rolled back, so the error result carries no state. -/
def update_node (st : St) (nodeId : Nat) (b : NodeUpdate) : Except HErr St :=
  match st.nodes.find? (fun n => n.id == nodeId) with
  | none => .error ⟨404, "Node not found"⟩
  | some node =>
    let node1 := applyGroup node b.group
    match b.is_lighthouse with
    | some v =>
      if v = false ∧ node.is_lighthouse = true ∧
          lighthouseCount st.nodes node.network_id ≤ 1 then
        .error ⟨409,
          "Cannot remove the only lighthouse. Designate another node as lighthouse first."⟩
      else
        .ok { st with
              nodes := replaceNode st.nodes nodeId
                (applyRest (setLighthouse node1 v) b) }
    | none =>
      .ok { st with nodes := replaceNode st.nodes nodeId (applyRest node1 b) }

/-- `DELETE /api/nodes/{id}` (`nodes.py:243-291`). -/
def delete_node (st : St) (nodeId : Nat) : Except HErr St :=
  match st.nodes.find? (fun n => n.id == nodeId) with
  | none => .error ⟨404, "Node not found"⟩
  | some node =>
    if node.is_lighthouse = true ∧
        lighthouseCount st.nodes node.network_id ≤ 1 then
      .error ⟨409,
        "Cannot delete the only lighthouse. Designate another node as lighthouse first, or delete the network."⟩
    else
      match (match node.ip_address with
             | some a => release node.network_id a st.allocated_ips
             | none => .ok st.allocated_ips) with
      | .error e => .error ⟨500, e⟩
      | .ok t1 =>
        .ok { st with
          nodes := st.nodes.filter fun n => !(n.id == nodeId),
          certificates := st.certificates.filter fun c => !(c.node_id == nodeId),
          network_configs := st.network_configs.filter fun i => !(i == nodeId),
          enrollment_codes := st.enrollment_codes.filter fun i => !(i == nodeId),
          allocated_ips := t1,
          fs := (st.fs.erase (hostCrtPath node.network_id node.hostname)).erase
            (hostKeyPath node.network_id node.hostname) }

/-- `POST /api/nodes/{id}/revoke-certificate` (`nodes.py:294-329`): stamp
`revoked_at = now` on every certificate row of the node, release the
address, delete the host files, clear the node's live fields and set status
`revoked`. -/
def revoke_node_certificate (st : St) (nodeId : Nat) (now : Nat) :
    Except HErr St :=
  match st.nodes.find? (fun n => n.id == nodeId) with
  | none => .error ⟨404, "Node not found"⟩
  | some node =>
    let certs1 := st.certificates.map fun c =>
      if c.node_id == nodeId then { c with revoked_at := some now } else c
    match (match node.ip_address with
           | some a =>
             (release node.network_id a st.allocated_ips).map fun t =>
               (t, (st.fs.erase (hostCrtPath node.network_id node.hostname)).erase
                 (hostKeyPath node.network_id node.hostname))
           | none => .ok (st.allocated_ips, st.fs)) with
    | .error e => .error ⟨500, e⟩
    | .ok (t1, fs1) =>
      .ok { st with
        nodes := replaceNode st.nodes nodeId
          { node with
            ip_address := none,
            public_key := none,
            cert_fingerprint := none,
            status := "revoked" },
        certificates := certs1, allocated_ips := t1, fs := fs1 }

/-- `settings.default_cert_expiry_days` (src/backend/config.py). -/
def default_cert_expiry_days : Nat := 365

/-- `CertManager.create_host_certificate_for_existing_node`
(`cert_manager.py:175-254`): ensure the CA, allocate an address, read the
CA material (decryption may fail), obtain a fresh keypair and signed
certificate from the external tool (its outputs `pubPem`/`privPem`/`certPem`
are oracle parameters), persist host files encrypted, update the node to
active and append a `Certificate` record. -/
def create_host_certificate_for_existing_node (key : Nat) (st : St)
    (node : NodeRec) (net : NetworkRec) (now : Nat)
    (pubPem privPem certPem : String) (suggested : Option Nat := none)
    (durationDays : Option Nat := none) : Except String St :=
  match ensure_ca key net st.fs st.generated with
  | (netU, fs1, g1) =>
    let dd := durationDays.getD default_cert_expiry_days
    match allocate netU.id netU.subnet suggested st.allocated_ips with
    | .error e => .error e
    | .ok (ip, t1) =>
      match netU.ca_cert_path, netU.ca_key_path with
      | some pCrt, some pKey =>
        match read_cert_store_file key fs1 pCrt with
        | .error e => .error e
        | .ok _ =>
          match read_cert_store_file key fs1 pKey with
          | .error e => .error e
          | .ok _ =>
            .ok { st with
              networks := st.networks.map fun m => if m.id == net.id then netU else m,
              nodes := replaceNode st.nodes node.id
                { node with
                  ip_address := some ip,
                  public_key := some pubPem,
                  cert_fingerprint := none,
                  status := "active" },
              certificates := st.certificates ++
                [⟨node.id, now, now + dd, none⟩],
              allocated_ips := t1,
              fs := write_cert_store_file key
                (write_cert_store_file key fs1
                  (hostCrtPath net.id node.hostname) certPem)
                (hostKeyPath net.id node.hostname) privPem,
              generated := g1 }
      | _, _ => .error "CA material not recorded"

/-- `POST /api/nodes/{id}/re-enroll` (`nodes.py:332-373`): when the node has
an address, first the revoke phase (stamp every certificate row, release the
address, delete host files, clear the live fields); then issue a new
certificate for the existing node. -/
def reenroll_node (key : Nat) (st : St) (nodeId : Nat) (now : Nat)
    (pubPem privPem certPem : String) : Except HErr St :=
  match st.nodes.find? (fun n => n.id == nodeId) with
  | none => .error ⟨404, "Node not found"⟩
  | some node =>
    let step1 : Except HErr (St × NodeRec) :=
      match node.ip_address with
      | some a =>
        match release node.network_id a st.allocated_ips with
        | .error e => .error ⟨500, e⟩
        | .ok t1 =>
          let node1 := { node with
            ip_address := none, public_key := none, cert_fingerprint := none }
          .ok ({ st with
            nodes := replaceNode st.nodes nodeId node1,
            certificates := st.certificates.map fun c =>
              if c.node_id == nodeId then { c with revoked_at := some now }
              else c,
            allocated_ips := t1,
            fs := (st.fs.erase (hostCrtPath node.network_id node.hostname)).erase
              (hostKeyPath node.network_id node.hostname) }, node1)
      | none => .ok (st, node)
    match step1 with
    | .error e => .error e
    | .ok (st1, node1) =>
      match st1.networks.find? (fun m => m.id == node.network_id) with
      | none => .error ⟨404, "Network not found"⟩
      | some net =>
        match create_host_certificate_for_existing_node key st1 node1 net now
            pubPem privPem certPem with
        | .error e => .error ⟨500, e⟩
        | .ok st2 => .ok st2

/-! Counting lemmas for the lighthouse floor. -/

theorem lighthouseCount_cons (m : NodeRec) (rest : List NodeRec) (netId : Nat) :
    lighthouseCount (m :: rest) netId =
      (if m.network_id == netId && m.is_lighthouse then 1 else 0) +
        lighthouseCount rest netId := by
  by_cases hm : (m.network_id == netId && m.is_lighthouse) = true
  · simp [lighthouseCount, List.filter, hm]
    omega
  · simp [lighthouseCount, List.filter, hm]

theorem replaceNode_no_match (nodes : List NodeRec) (nodeId : Nat)
    (n' : NodeRec) (h : ∀ n ∈ nodes, (n.id == nodeId) = false) :
    replaceNode nodes nodeId n' = nodes := by
  induction nodes with
  | nil => rfl
  | cons m rest ih =>
    simp only [replaceNode, List.map_cons]
    rw [h m (List.mem_cons_self m rest)]
    simp only [Bool.false_eq_true, if_false]
    exact congrArg (m :: ·) (ih fun n hn => h n (List.mem_cons_of_mem m hn))

theorem lighthouseCount_replaceNode (nodes : List NodeRec) (nodeId : Nat)
    (node n' : NodeRec) (netId : Nat)
    (hnodup : (nodes.map (·.id)).Nodup)
    (hfind : nodes.find? (fun n => n.id == nodeId) = some node) :
    lighthouseCount (replaceNode nodes nodeId n') netId +
      (if node.network_id == netId && node.is_lighthouse then 1 else 0) =
    lighthouseCount nodes netId +
      (if n'.network_id == netId && n'.is_lighthouse then 1 else 0) := by
  induction nodes with
  | nil => cases hfind
  | cons m rest ih =>
    rw [List.map_cons, List.nodup_cons] at hnodup
    by_cases hm : (m.id == nodeId) = true
    · rw [List.find?_cons_of_pos (p := fun n => n.id == nodeId) rest hm] at hfind
      cases hfind
      have hrest : ∀ n ∈ rest, (n.id == nodeId) = false := by
        intro n hn
        have : n.id ≠ node.id := by
          intro hc
          exact hnodup.1 (hc ▸ List.mem_map_of_mem (·.id) hn)
        have hmEq : node.id = nodeId := by simpa using hm
        simpa using fun hc => this (hc.trans hmEq.symm)
      simp only [replaceNode, List.map_cons, hm, if_pos]
      rw [show (List.map (fun n => if n.id == nodeId then n' else n) rest) =
        replaceNode rest nodeId n' from rfl]
      rw [replaceNode_no_match rest nodeId n' hrest]
      rw [lighthouseCount_cons, lighthouseCount_cons]
      omega
    · rw [List.find?_cons_of_neg (p := fun n => n.id == nodeId) rest (by simpa using hm)] at hfind
      simp only [replaceNode, List.map_cons, hm, Bool.false_eq_true, if_false]
      rw [show (List.map (fun n => if n.id == nodeId then n' else n) rest) =
        replaceNode rest nodeId n' from rfl]
      rw [lighthouseCount_cons, lighthouseCount_cons]
      have := ih hnodup.2 hfind
      omega

theorem lighthouseCount_eraseNode (nodes : List NodeRec) (nodeId : Nat)
    (node : NodeRec) (netId : Nat)
    (hnodup : (nodes.map (·.id)).Nodup)
    (hfind : nodes.find? (fun n => n.id == nodeId) = some node) :
    lighthouseCount (nodes.filter fun n => !(n.id == nodeId)) netId +
      (if node.network_id == netId && node.is_lighthouse then 1 else 0) =
    lighthouseCount nodes netId := by
  induction nodes with
  | nil => cases hfind
  | cons m rest ih =>
    rw [List.map_cons, List.nodup_cons] at hnodup
    by_cases hm : (m.id == nodeId) = true
    · rw [List.find?_cons_of_pos (p := fun n => n.id == nodeId) rest hm] at hfind
      cases hfind
      have hrest : ∀ n ∈ rest, (n.id == nodeId) = false := by
        intro n hn
        have : n.id ≠ node.id := by
          intro hc
          exact hnodup.1 (hc ▸ List.mem_map_of_mem (·.id) hn)
        have hmEq : node.id = nodeId := by simpa using hm
        simpa using fun hc => this (hc.trans hmEq.symm)
      rw [List.filter_cons]
      rw [show (!(node.id == nodeId)) = false by simpa using hm]
      simp only [Bool.false_eq_true, if_false]
      rw [List.filter_eq_self.mpr (by intro n hn; simpa using hrest n hn)]
      rw [lighthouseCount_cons]
      omega
    · rw [List.find?_cons_of_neg (p := fun n => n.id == nodeId) rest (by simpa using hm)] at hfind
      rw [List.filter_cons]
      rw [show (!(m.id == nodeId)) = true by simpa using hm]
      simp only [if_true]
      rw [lighthouseCount_cons, lighthouseCount_cons]
      have := ih hnodup.2 hfind
      omega

theorem applyRest_preserves (node : NodeRec) (b : NodeUpdate) :
    (applyRest node b).is_lighthouse = node.is_lighthouse ∧
    (applyRest node b).network_id = node.network_id ∧
    (applyRest node b).id = node.id := by
  obtain ⟨g, il, ir, pe, lo, lg, po⟩ := b
  unfold applyRest
  cases ir <;> cases pe <;> cases lo <;> cases lg <;> cases po <;>
    exact ⟨rfl, rfl, rfl⟩

theorem applyGroup_preserves (node : NodeRec) (g : Option PyStr) :
    (applyGroup node g).is_lighthouse = node.is_lighthouse ∧
    (applyGroup node g).network_id = node.network_id ∧
    (applyGroup node g).id = node.id := by
  cases g <;> exact ⟨rfl, rfl, rfl⟩

/-- C6: the lighthouse floor.  When a network has at least one lighthouse,
neither `update_node` nor `delete_node` (with commit-on-success,
rollback-on-error sessions) can bring its lighthouse count to zero; and the
two operations that would do so — turning off the lighthouse role on the
network's only lighthouse, and deleting the network's only lighthouse —
are rejected with a 409 conflict whose error result carries no mutated
state. -/
theorem c6_lighthouse_floor (st : St) (nodeId : Nat) (b : NodeUpdate)
    (node : NodeRec) (netId : Nat)
    (hids : (st.nodes.map (·.id)).Nodup) :
    (1 ≤ lighthouseCount st.nodes netId →
      1 ≤ lighthouseCount (applyResult st (update_node st nodeId b)).nodes netId) ∧
    (1 ≤ lighthouseCount st.nodes netId →
      1 ≤ lighthouseCount (applyResult st (delete_node st nodeId)).nodes netId) ∧
    (st.nodes.find? (fun n => n.id == nodeId) = some node →
      node.is_lighthouse = true →
      lighthouseCount st.nodes node.network_id ≤ 1 →
      (b.is_lighthouse = some false →
        update_node st nodeId b = .error ⟨409,
          "Cannot remove the only lighthouse. Designate another node as lighthouse first."⟩) ∧
      delete_node st nodeId = .error ⟨409,
        "Cannot delete the only lighthouse. Designate another node as lighthouse first, or delete the network."⟩) := by
  refine ⟨?_, ?_, ?_⟩
  · intro hcount
    unfold update_node
    rcases hfind : st.nodes.find? (fun n => n.id == nodeId) with _ | nd
    · rw [hfind]
      exact hcount
    rw [hfind]
    dsimp only
    rcases hbl : b.is_lighthouse with _ | v
    · dsimp only [applyResult]
      rcases applyRest_preserves (applyGroup nd b.group) b with ⟨h1, h2, -⟩
      rcases applyGroup_preserves nd b.group with ⟨hg1, hg2, -⟩
      have hrepl := lighthouseCount_replaceNode st.nodes nodeId nd
        (applyRest (applyGroup nd b.group) b) netId hids hfind
      rw [h1, hg1, h2, hg2] at hrepl
      omega
    · dsimp only
      by_cases hcond : v = false ∧ nd.is_lighthouse = true ∧
          lighthouseCount st.nodes nd.network_id ≤ 1
      · rw [if_pos hcond]
        exact hcount
      · rw [if_neg hcond]
        dsimp only [applyResult]
        rcases applyRest_preserves (setLighthouse (applyGroup nd b.group) v) b
          with ⟨h1, h2, -⟩
        have hrepl := lighthouseCount_replaceNode st.nodes nodeId nd
          (applyRest (setLighthouse (applyGroup nd b.group) v) b) netId hids hfind
        rw [h1, h2] at hrepl
        have hsl1 : (setLighthouse (applyGroup nd b.group) v).is_lighthouse = v := rfl
        have hsl2 : (setLighthouse (applyGroup nd b.group) v).network_id =
            nd.network_id := (applyGroup_preserves nd b.group).2.1
        rw [hsl1, hsl2] at hrepl
        cases v
        · by_cases hlh : nd.is_lighthouse = true
          · have h2x : 2 ≤ lighthouseCount st.nodes nd.network_id := by
              rcases Nat.lt_or_ge (lighthouseCount st.nodes nd.network_id) 2 with h | h
              · exact absurd ⟨rfl, hlh, by omega⟩ hcond
              · exact h
            by_cases hnet : nd.network_id = netId
            · subst hnet
              rw [hlh] at hrepl
              simp at hrepl
              omega
            · rw [show (nd.network_id == netId) = false by simpa using hnet] at hrepl
              simp at hrepl
              omega
          · have hlh' : nd.is_lighthouse = false := by
              cases h : nd.is_lighthouse
              · rfl
              · exact absurd h hlh
            rw [hlh'] at hrepl
            simp at hrepl
            omega
        · by_cases hnet : nd.network_id = netId
          · subst hnet
            cases h : nd.is_lighthouse <;> rw [h] at hrepl <;> simp at hrepl <;>
              omega
          · rw [show (nd.network_id == netId) = false by simpa using hnet] at hrepl
            simp at hrepl
            omega
  · intro hcount
    unfold delete_node
    rcases hfind : st.nodes.find? (fun n => n.id == nodeId) with _ | nd
    · rw [hfind]
      exact hcount
    rw [hfind]
    dsimp only
    by_cases hcond : nd.is_lighthouse = true ∧
        lighthouseCount st.nodes nd.network_id ≤ 1
    · rw [if_pos hcond]
      exact hcount
    · rw [if_neg hcond]
      have herase := lighthouseCount_eraseNode st.nodes nodeId nd netId hids hfind
      have hmain : 1 ≤ lighthouseCount
          (st.nodes.filter fun n => !(n.id == nodeId)) netId := by
        cases hlh : nd.is_lighthouse
        · rw [hlh] at herase
          simp at herase
          omega
        · have h2x : 2 ≤ lighthouseCount st.nodes nd.network_id := by
            rcases Nat.lt_or_ge (lighthouseCount st.nodes nd.network_id) 2 with h | h
            · exact absurd ⟨hlh, by omega⟩ hcond
            · exact h
          by_cases hnet : nd.network_id = netId
          · subst hnet
            rw [hlh] at herase
            simp at herase
            omega
          · rw [show (nd.network_id == netId) = false by simpa using hnet] at herase
            simp at herase
            omega
      rcases hip : nd.ip_address with _ | a
      · dsimp only [applyResult]
        exact hmain
      · dsimp only
        rcases hrel : release nd.network_id a st.allocated_ips with e | t1 <;>
          dsimp only [applyResult]
        · exact hcount
        · exact hmain
  · intro hfind hlh hcount
    constructor
    · intro hbl
      unfold update_node
      rw [hfind]
      dsimp only
      rw [hbl]
      dsimp only
      rw [if_pos ⟨rfl, hlh, hcount⟩]
    · unfold delete_node
      rw [hfind]
      dsimp only
      rw [if_pos ⟨hlh, hcount⟩]

theorem find?_replaceNode (nodes : List NodeRec) (nodeId : Nat)
    (node n' : NodeRec)
    (hfind : nodes.find? (fun n => n.id == nodeId) = some node)
    (hid : (n'.id == nodeId) = true) :
    (replaceNode nodes nodeId n').find? (fun n => n.id == nodeId) = some n' := by
  induction nodes with
  | nil => cases hfind
  | cons m rest ih =>
    by_cases hm : (m.id == nodeId) = true
    · simp only [replaceNode, List.map_cons, hm, if_pos]
      exact List.find?_cons_of_pos (p := fun n : NodeRec => n.id == nodeId) _ hid
    · rw [List.find?_cons_of_neg (p := fun n : NodeRec => n.id == nodeId) rest
        (by simpa using hm)] at hfind
      simp only [replaceNode, List.map_cons, hm, Bool.false_eq_true, if_false]
      rw [List.find?_cons_of_neg (p := fun n : NodeRec => n.id == nodeId) _
        (by simpa using hm)]
      exact ih hfind

theorem replaceNode_replaceNode (nodes : List NodeRec) (k : Nat)
    (n1 n2 : NodeRec) (h : (n1.id == k) = true) :
    replaceNode (replaceNode nodes k n1) k n2 = replaceNode nodes k n2 := by
  induction nodes with
  | nil => rfl
  | cons m rest ih =>
    simp only [replaceNode, List.map_cons]
    by_cases hm : (m.id == k) = true
    · simp only [hm, h, eq_self_iff_true, if_true]
      exact congrArg (n2 :: ·) ih
    · have hm' : (m.id == k) = false := by
        cases hx : (m.id == k)
        · rfl
        · exact absurd hx hm
      simp only [hm', Bool.false_eq_true, if_false]
      exact congrArg (m :: ·) ih

theorem release_not_allocated (nid a : Nat) (t t' : AllocTable)
    (h : release nid a t = .ok t') : is_allocated t' nid a = false := by
  unfold release at h
  rcases hm : t.filter (fun r => r.network_id == nid && r.ip_address == a)
    with _ | ⟨r, rest⟩
  · rw [hm] at h
    cases h
    unfold is_allocated
    rw [List.any_eq_false]
    intro x hx hcon
    exact List.filter_eq_nil_iff.mp hm x hx hcon
  · rw [hm] at h
    rcases rest with _ | ⟨r2, rest2⟩
    · cases h
      unfold is_allocated
      rw [List.any_eq_false]
      intro x hx hcon
      rcases List.mem_filter.mp hx with ⟨-, hx2⟩
      rw [hcon] at hx2
      simp at hx2
    · cases h

/-- Characterization of a successful revoke (`nodes.py:294-329`). -/
theorem revoke_ok_spec (st : St) (nodeId now : Nat) (st' : St) (node : NodeRec)
    (hfind : st.nodes.find? (fun n => n.id == nodeId) = some node)
    (h : revoke_node_certificate st nodeId now = .ok st') :
    st'.nodes = replaceNode st.nodes nodeId
      { node with
        ip_address := none,
        public_key := none,
        cert_fingerprint := none,
        status := "revoked" } ∧
    st'.certificates = st.certificates.map (fun c =>
      if c.node_id == nodeId then { c with revoked_at := some now } else c) ∧
    (∀ a, node.ip_address = some a →
      is_allocated st'.allocated_ips node.network_id a = false) := by
  unfold revoke_node_certificate at h
  rw [hfind] at h
  dsimp only at h
  rcases hip : node.ip_address with _ | a
  · rw [hip] at h
    dsimp only at h
    cases h
    refine ⟨rfl, rfl, fun a ha => ?_⟩
    cases ha
  · rw [hip] at h
    dsimp only at h
    rcases hrel : release node.network_id a st.allocated_ips with e | t1 <;>
      rw [hrel] at h
    · cases h
    · cases h
      refine ⟨rfl, rfl, fun a' ha' => ?_⟩
      cases ha'
      exact release_not_allocated node.network_id a st.allocated_ips t1 hrel

theorem match_create_ok (x : Except String St) (y : St)
    (h : (match x with
          | .error e => (.error ⟨500, e⟩ : Except HErr St)
          | .ok s => .ok s) = .ok y) : x = .ok y := by
  rcases x with e | s
  · cases h
  · cases h
    rfl

/-- Characterization of a successful re-enroll (`nodes.py:332-373` composed
with `cert_manager.py:175-254`): the node ends active with a fresh address
and the server-generated public key, and exactly one new certificate record
(unrevoked) is appended after the revoke phase stamped every prior record
of the node. -/
theorem reenroll_ok_spec (key : Nat) (st : St) (nodeId now : Nat)
    (pub priv cert : String) (st' : St) (node : NodeRec)
    (hfind : st.nodes.find? (fun n => n.id == nodeId) = some node)
    (h : reenroll_node key st nodeId now pub priv cert = .ok st') :
    ∃ ip,
      st'.nodes = replaceNode st.nodes nodeId
        { node with
          ip_address := some ip,
          public_key := some pub,
          cert_fingerprint := none,
          status := "active" } ∧
      st'.certificates =
        (match node.ip_address with
         | some _ => st.certificates.map fun c =>
             if c.node_id == nodeId then { c with revoked_at := some now }
             else c
         | none => st.certificates) ++
          [⟨nodeId, now, now + default_cert_expiry_days, none⟩] := by
  have hid : (node.id == nodeId) = true :=
    List.find?_some (p := fun n : NodeRec => n.id == nodeId) hfind
  have hidEq : node.id = nodeId := by simpa using hid
  unfold reenroll_node at h
  rw [hfind] at h
  dsimp only at h
  rcases hip : node.ip_address with _ | a
  · rw [hip] at h
    dsimp only at h
    rcases hnet : st.networks.find? (fun m => m.id == node.network_id)
      with _ | net <;> rw [hnet] at h
    · cases h
    have hcr := match_create_ok _ _ h
    unfold create_host_certificate_for_existing_node at hcr
    rcases hca : ensure_ca key net st.fs st.generated with ⟨netU, fs2, g2⟩
    rw [hca] at hcr
    dsimp only at hcr
    rcases hal : allocate netU.id netU.subnet none st.allocated_ips
      with e | ⟨ip, t2⟩ <;> rw [hal] at hcr
    · cases hcr
    dsimp only at hcr
    rcases hp1 : netU.ca_cert_path with _ | pCrt <;> rw [hp1] at hcr
    · cases hcr
    rcases hp2 : netU.ca_key_path with _ | pKey <;> rw [hp2] at hcr
    · cases hcr
    dsimp only at hcr
    rcases hr1 : read_cert_store_file key fs2 pCrt with e | c1 <;>
      rw [hr1] at hcr
    · cases hcr
    rcases hr2 : read_cert_store_file key fs2 pKey with e | c2 <;>
      rw [hr2] at hcr
    · cases hcr
    cases hcr
    refine ⟨ip, ?_, ?_⟩
    · dsimp only
      rw [hidEq]
    · dsimp only
      rw [hidEq]
      rfl
  · rw [hip] at h
    dsimp only at h
    rcases hrel : release node.network_id a st.allocated_ips with e | t1 <;>
      rw [hrel] at h
    · cases h
    dsimp only at h
    rcases hnet : st.networks.find? (fun m => m.id == node.network_id)
      with _ | net <;> rw [hnet] at h
    · cases h
    have hcr := match_create_ok _ _ h
    unfold create_host_certificate_for_existing_node at hcr
    dsimp only at hcr
    rcases hca : ensure_ca key net
        ((st.fs.erase (hostCrtPath node.network_id node.hostname)).erase
          (hostKeyPath node.network_id node.hostname)) st.generated
      with ⟨netU, fs2, g2⟩
    rw [hca] at hcr
    dsimp only at hcr
    rcases hal : allocate netU.id netU.subnet none t1 with e | ⟨ip, t2⟩ <;>
      rw [hal] at hcr
    · cases hcr
    dsimp only at hcr
    rcases hp1 : netU.ca_cert_path with _ | pCrt <;> rw [hp1] at hcr
    · cases hcr
    rcases hp2 : netU.ca_key_path with _ | pKey <;> rw [hp2] at hcr
    · cases hcr
    dsimp only at hcr
    rcases hr1 : read_cert_store_file key fs2 pCrt with e | c1 <;>
      rw [hr1] at hcr
    · cases hcr
    rcases hr2 : read_cert_store_file key fs2 pKey with e | c2 <;>
      rw [hr2] at hcr
    · cases hcr
    cases hcr
    refine ⟨ip, ?_, ?_⟩
    · dsimp only
      rw [hidEq, replaceNode_replaceNode _ _ _ _ (by simp)]
    · dsimp only
      rw [hidEq]
      rfl

/-- C7: revoking a node's certificate releases its allocated address (no
allocation row remains for it, so it is subsequently allocatable), clears
the node's live address, public key and fingerprint, and sets its status
to revoked; a subsequent re-issue for the same node allocates an address
(possibly the same one, if still free — see the witness), appends a new
unrevoked certificate record and returns the node's status to active. -/
theorem c7_revoke_reissue_round_trip (key : Nat) (st : St) (nodeId now : Nat)
    (pub priv cert : String) (st' st'' : St) (node : NodeRec)
    (hfind : st.nodes.find? (fun n => n.id == nodeId) = some node) :
    (revoke_node_certificate st nodeId now = .ok st' →
      ∃ node', st'.nodes.find? (fun n => n.id == nodeId) = some node' ∧
        node'.ip_address = none ∧ node'.public_key = none ∧
        node'.cert_fingerprint = none ∧ node'.status = "revoked" ∧
        (∀ a, node.ip_address = some a →
          is_allocated st'.allocated_ips node.network_id a = false)) ∧
    (reenroll_node key st nodeId now pub priv cert = .ok st'' →
      ∃ node' ip, st''.nodes.find? (fun n => n.id == nodeId) = some node' ∧
        node'.status = "active" ∧ node'.ip_address = some ip ∧
        node'.public_key = some pub ∧
        st''.certificates.length = st.certificates.length + 1 ∧
        st''.certificates.getLast? =
          some ⟨nodeId, now, now + default_cert_expiry_days, none⟩) := by
  have hid : (node.id == nodeId) = true :=
    List.find?_some (p := fun n : NodeRec => n.id == nodeId) hfind
  constructor
  · intro h
    rcases revoke_ok_spec st nodeId now st' node hfind h with ⟨hn, -, halloc⟩
    refine ⟨{ node with
        ip_address := none,
        public_key := none,
        cert_fingerprint := none,
        status := "revoked" }, ?_, rfl, rfl, rfl, rfl, halloc⟩
    rw [hn]
    exact find?_replaceNode st.nodes nodeId node _ hfind hid
  · intro h
    rcases reenroll_ok_spec key st nodeId now pub priv cert st'' node hfind h
      with ⟨ip, hn, hc⟩
    refine ⟨{ node with
        ip_address := some ip,
        public_key := some pub,
        cert_fingerprint := none,
        status := "active" }, ip, ?_, rfl, rfl, rfl, ?_, ?_⟩
    · rw [hn]
      exact find?_replaceNode st.nodes nodeId node _ hfind hid
    · rw [hc, List.length_append]
      cases node.ip_address <;> simp
    · rw [hc]
      exact List.getLast?_concat _

/-- A concrete state for the witnesses: network 1 on block 0.0.0.8/30 with
an established CA, one active node holding address 9 and one certificate. -/
def demoNode : NodeRec :=
  ⟨1, 1, "host", some 9, some "pk", none, [], true, false, none, none, none,
    none, "active"⟩

def demoState : St :=
  { networks := [⟨1, "n", ⟨8, 30⟩, some (caCrtPath 1), some (caKeyPath 1)⟩],
    nodes := [demoNode],
    certificates := [⟨1, 0, 100, none⟩],
    allocated_ips := [⟨1, 9⟩],
    fs := [(caCrtPath 1, encrypt 7 "CA"), (caKeyPath 1, encrypt 7 "KEY")] }

def demoPostRevoke : St :=
  applyResult demoState (revoke_node_certificate demoState 1 5)

def demoPostReenroll : St :=
  applyResult demoState (reenroll_node 7 demoState 1 5 "pub" "priv" "cert")

/-- Witness for C7: on the concrete state both operations succeed; the
re-enroll reallocates the same address 9 (it was released and is the first
free host), demonstrating "possibly the same one, if still free". -/
theorem c7_revoke_reissue_round_trip_witness :
    (∃ node', demoPostRevoke.nodes.find? (fun n => n.id == 1) = some node' ∧
      node'.ip_address = none ∧ node'.public_key = none ∧
      node'.cert_fingerprint = none ∧ node'.status = "revoked" ∧
      (∀ a, demoNode.ip_address = some a →
        is_allocated demoPostRevoke.allocated_ips demoNode.network_id a = false)) ∧
    (∃ node' ip, demoPostReenroll.nodes.find? (fun n => n.id == 1) = some node' ∧
      node'.status = "active" ∧ node'.ip_address = some ip ∧
      node'.public_key = some "pub" ∧
      demoPostReenroll.certificates.length = demoState.certificates.length + 1 ∧
      demoPostReenroll.certificates.getLast? =
        some ⟨1, 5, 5 + default_cert_expiry_days, none⟩) ∧
    demoPostReenroll.nodes.map (·.ip_address) = [some 9] :=
  ⟨(c7_revoke_reissue_round_trip 7 demoState 1 5 "pub" "priv" "cert"
      demoPostRevoke demoPostReenroll demoNode (by rfl)).1 (by rfl),
   (c7_revoke_reissue_round_trip 7 demoState 1 5 "pub" "priv" "cert"
      demoPostRevoke demoPostReenroll demoNode (by rfl)).2 (by rfl),
   by rfl⟩

/-- C10: the revoke operation and the revoke phase of re-enroll stamp
`revoked_at = now` on every certificate record of the node — the update is
an unfiltered map over the node's records, so records already revoked
earlier have their original timestamps overwritten — rather than marking
only the node's current (most recent non-revoked) record. -/
theorem c10_revoke_stamps_every_certificate (key : Nat) (st : St)
    (nodeId now : Nat) (pub priv cert : String) (st' st'' : St)
    (node : NodeRec)
    (hfind : st.nodes.find? (fun n => n.id == nodeId) = some node) :
    (revoke_node_certificate st nodeId now = .ok st' →
      st'.certificates = st.certificates.map (fun c =>
        if c.node_id == nodeId then { c with revoked_at := some now }
        else c) ∧
      ∀ c ∈ st'.certificates, c.node_id = nodeId →
        c.revoked_at = some now) ∧
    (∀ a, node.ip_address = some a →
      reenroll_node key st nodeId now pub priv cert = .ok st'' →
      st''.certificates = (st.certificates.map fun c =>
          if c.node_id == nodeId then { c with revoked_at := some now }
          else c) ++
        [⟨nodeId, now, now + default_cert_expiry_days, none⟩]) := by
  constructor
  · intro h
    rcases revoke_ok_spec st nodeId now st' node hfind h with ⟨-, hc, -⟩
    refine ⟨hc, ?_⟩
    intro c hcmem hcid
    rw [hc] at hcmem
    rcases List.mem_map.mp hcmem with ⟨c0, hc0, rfl⟩
    by_cases h0 : (c0.node_id == nodeId) = true
    · simp only [h0, if_true]
    · rw [if_neg (by simpa using h0)] at hcid ⊢
      exact absurd hcid (by simpa using h0)
  · intro a hip h
    rcases reenroll_ok_spec key st nodeId now pub priv cert st'' node hfind h
      with ⟨ip, -, hc⟩
    rw [hip] at hc
    exact hc

/-- Witness for C10: on the concrete state (whose certificate record was
unrevoked with timestamps 0/100) both operations stamp it with the new
time 5. -/
theorem c10_revoke_stamps_every_certificate_witness :
    (demoPostRevoke.certificates = demoState.certificates.map (fun c =>
        if c.node_id == 1 then { c with revoked_at := some 5 } else c) ∧
      ∀ c ∈ demoPostRevoke.certificates, c.node_id = 1 →
        c.revoked_at = some 5) ∧
    demoPostReenroll.certificates = (demoState.certificates.map fun c =>
        if c.node_id == 1 then { c with revoked_at := some 5 } else c) ++
      [⟨1, 5, 5 + default_cert_expiry_days, none⟩] :=
  ⟨(c10_revoke_stamps_every_certificate 7 demoState 1 5 "pub" "priv" "cert"
      demoPostRevoke demoPostReenroll demoNode (by rfl)).1 (by rfl),
   (c10_revoke_stamps_every_certificate 7 demoState 1 5 "pub" "priv" "cert"
      demoPostRevoke demoPostReenroll demoNode (by rfl)).2 9 (by rfl) (by rfl)⟩

/-- Witness for C6 at a concrete state: a network whose single node is its
only lighthouse; the role toggle and the deletion are both rejected with
409. -/
theorem c6_lighthouse_floor_witness :
    (update_node { nodes := [{ id := 1, network_id := 1, hostname := "h", is_lighthouse := true }] }
        1 { is_lighthouse := some false } =
      .error ⟨409,
        "Cannot remove the only lighthouse. Designate another node as lighthouse first."⟩) ∧
    (delete_node { nodes := [{ id := 1, network_id := 1, hostname := "h", is_lighthouse := true }] }
        1 =
      .error ⟨409,
        "Cannot delete the only lighthouse. Designate another node as lighthouse first, or delete the network."⟩) := by
  have h := (c6_lighthouse_floor
    { nodes := [{ id := 1, network_id := 1, hostname := "h", is_lighthouse := true }] }
    1 { is_lighthouse := some false }
    { id := 1, network_id := 1, hostname := "h", is_lighthouse := true } 1
    (by decide)).2.2 (by rfl) (by rfl) (by decide)
  exact ⟨h.1 rfl, h.2⟩

end NebulaCommander
